import Mathlib

/-!
Verification of the NanoBot Web UI gateway-process supervisor and its config
store, as implemented in src/webui/main.py.

The supervisor state is a module-level process handle guarded by a
threading.Lock.  We embed it as a pure state-passing model:

* `SupState` holds the recorded handle (`gateway_process`), the table of all
  child processes ever spawned by the supervisor together with their OS
  liveness (`procs`), a fresh-pid counter, and whether the (non-reentrant)
  supervisor lock is currently held.
* OS nondeterminism (spawn success or failure, exit within the grace period,
  spontaneous child exit) is passed in as explicit oracle arguments.
* A Python function that blocks forever (acquiring an already-held
  non-reentrant lock) is modelled by returning `none`; a function that
  returns normally yields `some` of the successor state and its return value.
  Filesystem side effects that no claim observes (mkdir of the data
  directory, opening the log file in append mode, printing to stdout,
  `asyncio.sleep`) are not part of the state.
-/

namespace NanobotWebUI

/-- One supervised OS process: its pid and whether the OS currently reports
it alive (`poll() is None`). -/
structure Proc where
  pid : Nat
  alive : Bool
deriving DecidableEq, Repr

/-- The supervisor's world state: the module-level `gateway_process` handle
(`none` = Python `None`), the OS table of children spawned so far, a counter
supplying fresh pids, and whether `gateway_lock` (a non-reentrant
`threading.Lock`) is held. -/
structure SupState where
  gateway_process : Option Nat
  procs : List Proc
  nextPid : Nat
  lockHeld : Bool
deriving DecidableEq, Repr

/-- The initial `Stopped` state: no handle recorded, no children, lock free. -/
def initState : SupState := ⟨none, [], 0, false⟩

/-- OS liveness query for a pid: `Popen.poll() is None`. -/
def pollAlive (s : SupState) (pid : Nat) : Bool :=
  s.procs.any (fun p => p.pid == pid && p.alive)

/-- Embeds `is_gateway_running` (src/webui/main.py lines 60-63):
if the handle is `None` return `False`, else report whether `poll()` is
`None` (process alive). -/
def is_gateway_running (s : SupState) : Bool :=
  match s.gateway_process with
  | none => false
  | some pid => pollAlive s pid

/-- Oracle for `subprocess.Popen`: the OS either creates the process or
raises an `OSError` (missing executable, permission denied) with message
`err`. -/
inductive SpawnOutcome where
  | ok : SpawnOutcome
  | fail (err : String) : SpawnOutcome
deriving DecidableEq, Repr

/-- The Python value returned by a supervisor function: `None`, or a dict of
boolean fields (the shape the spec's start report would have). -/
inductive PyVal where
  | pyNone : PyVal
  | pyDict (fields : List (String × Bool)) : PyVal
deriving DecidableEq, Repr

/-- How a Python call ends: returning a value, or propagating a raised
exception to the caller.  `start_gateway` wraps its body in
`try/except Exception`, so in the code it can only ever `val`. -/
inductive PyResult where
  | val (v : PyVal) : PyResult
  | raised (err : String) : PyResult
deriving DecidableEq, Repr

/-- Record a successful `subprocess.Popen`: a fresh live child is added to
the OS table and the module-level handle is set to it. -/
def spawnProc (s : SupState) : SupState :=
  { s with
    procs := s.procs ++ [⟨s.nextPid, true⟩]
    gateway_process := some s.nextPid
    nextPid := s.nextPid + 1 }

/-- Embeds `start_gateway` (src/webui/main.py lines 42-57).
`with gateway_lock:` on a non-reentrant lock blocks forever when the lock is
already held by the calling thread (`none`).  Otherwise: if the recorded
handle is set and the OS reports it alive, return early (Python `None`);
else attempt `subprocess.Popen` — on success record the new child, on an OS
error the `except` clause prints the error and the function returns `None`
with the handle left unchanged. -/
def start_gateway (s : SupState) (o : SpawnOutcome) : Option (SupState × PyResult) :=
  if s.lockHeld then
    none
  else
    if is_gateway_running s then
      some (s, .val .pyNone)
    else
      match o with
      | .ok => some (spawnProc s, .val .pyNone)
      | .fail _ => some (s, .val .pyNone)

/-- Mark every table entry with the given pid as dead (the OS has reaped or
killed the process). -/
def markDead (s : SupState) (pid : Nat) : SupState :=
  { s with procs := s.procs.map (fun p => if p.pid == pid then ⟨p.pid, false⟩ else p) }

/-- The grace period of the termination escalation: `wait(timeout=5)` in
`restart_gateway` (src/webui/main.py line 116). -/
def gracePeriod : Nat := 5

/-- Observable process-control actions issued to the OS. -/
inductive PAct where
  | terminate : PAct
  | wait (timeout : Nat) : PAct
  | kill : PAct
deriving DecidableEq, Repr

/-- Embeds the stop sub-step of `restart_gateway` (src/webui/main.py lines
113-118): if the recorded handle is set and alive, send `terminate()`, then
`wait(timeout=5)`; if the wait raises `TimeoutExpired` (the process is still
alive after the grace period, oracle `exitsInGrace = false`), send `kill()`.
In either branch the child is dead afterwards. -/
def stopStep (s : SupState) (exitsInGrace : Bool) : SupState × List PAct :=
  match s.gateway_process with
  | none => (s, [])
  | some pid =>
    if pollAlive s pid then
      if exitsInGrace then
        (markDead s pid, [.terminate, .wait gracePeriod])
      else
        (markDead s pid, [.terminate, .wait gracePeriod, .kill])
    else
      (s, [])

/-- The JSON body `restart_gateway` would return on success. -/
structure RestartResp where
  success : Bool
  running : Bool
deriving DecidableEq, Repr

/-- Embeds `restart_gateway` (src/webui/main.py lines 108-123).  It acquires
`gateway_lock` (blocking forever if already held), performs the stop
sub-step, sleeps, then calls `start_gateway()` — which re-acquires the same
non-reentrant lock and therefore blocks forever.  The response component is
`none` when the call never returns. -/
def restart_gateway (s : SupState) (exitsInGrace : Bool) (o : SpawnOutcome) :
    SupState × Option RestartResp × List PAct :=
  if s.lockHeld then
    (s, none, [])
  else
    let s1 := { s with lockHeld := true }
    let r := stopStep s1 exitsInGrace
    match start_gateway r.1 o with
    | none => (r.1, none, r.2)
    | some (s3, _) => ({ s3 with lockHeld := false }, some ⟨true, is_gateway_running s3⟩, r.2)

/-- Response shape of the `/api/status` endpoint. -/
structure StatusResp where
  ok : Bool
  gateway_running : Bool
  config_exists : Bool
deriving DecidableEq, Repr

/-- Embeds `get_status` (src/webui/main.py lines 88-90): a read-only query
returning `ok`, the liveness report of `is_gateway_running`, and whether the
config file exists. -/
def get_status (s : SupState) (config_file : Option String) : StatusResp :=
  ⟨true, is_gateway_running s, config_file.isSome⟩

/-- Response shape of the spec's `stop` operation. -/
structure StopResp where
  stopped : Bool
deriving DecidableEq, Repr

/-- Result of the spec's `stop`: successor state, response, actions issued. -/
structure StopOutcome where
  state : SupState
  resp : StopResp
  acts : List PAct
deriving DecidableEq, Repr

/-- Modelled from the spec: the Web UI variant has no standalone `stop`
operation in src (only the stop sub-step inside `restart_gateway`), so
`stop` is modelled from spec §4.1: "if no live child, return
`stopped: true` (idempotent). Otherwise send a graceful termination signal;
wait up to `grace_period` for natural exit; if still alive after the grace
period, force-kill. Clear `current` in all cases once the process is
confirmed dead." -/
def stop (s : SupState) (grace : Nat) (exitsInGrace : Bool) : StopOutcome :=
  match s.gateway_process with
  | none => ⟨s, ⟨true⟩, []⟩
  | some pid =>
    if pollAlive s pid then
      if exitsInGrace then
        ⟨{ markDead s pid with gateway_process := none }, ⟨true⟩, [.terminate, .wait grace]⟩
      else
        ⟨{ markDead s pid with gateway_process := none }, ⟨true⟩, [.terminate, .wait grace, .kill]⟩
    else
      ⟨{ s with gateway_process := none }, ⟨true⟩, []⟩

/-- One supervisor-facing event: the operations of the HTTP layer
(`start` via the startup hook, `restart`, `status`, log reads) plus the
environment event of a child exiting on its own. -/
inductive SupOp where
  | start (o : SpawnOutcome) : SupOp
  | restart (exitsInGrace : Bool) (o : SpawnOutcome) : SupOp
  | status : SupOp
  | logs (lines : Int) : SupOp
  | procExit (pid : Nat) : SupOp
deriving DecidableEq, Repr

/-- Effect of one event on the supervisor's world.  A blocked call
(`start_gateway` returning `none`) leaves the world unchanged: the hung
thread has made no state mutation. -/
def stepOp (s : SupState) : SupOp → SupState
  | .start o =>
    match start_gateway s o with
    | none => s
    | some (s', _) => s'
  | .restart e o => (restart_gateway s e o).1
  | .status => s
  | .logs _ => s
  | .procExit pid => markDead s pid

/-- Run a sequence of events from a state. -/
def runOps (s : SupState) : List SupOp → SupState
  | [] => s
  | op :: rest => runOps (stepOp s op) rest

/-- Number of supervisor-spawned children the OS reports alive. -/
def countAlive (s : SupState) : Nat :=
  (s.procs.filter (fun p => p.alive)).length

/-- The inductive invariant behind "at most one running": every live child
is the recorded one, pids are below the fresh counter, and pids are
pairwise distinct. -/
def Inv (s : SupState) : Prop :=
  (∀ p, p ∈ s.procs → p.alive = true → s.gateway_process = some p.pid) ∧
  (∀ p, p ∈ s.procs → p.pid < s.nextPid) ∧
  s.procs.Pairwise (fun a b => a.pid ≠ b.pid)

/-! ### Invariant lemmas for the supervisor -/

theorem inv_initState : Inv initState := by
  refine ⟨?_, ?_, ?_⟩ <;> simp [initState, Inv]

theorem countAlive_le_one_of_inv {s : SupState} (h : Inv s) : countAlive s ≤ 1 := by
  obtain ⟨h1, _, h3⟩ := h
  unfold countAlive
  have hpw : (s.procs.filter (fun p => p.alive)).Pairwise (fun a b => a.pid ≠ b.pid) :=
    h3.filter _
  match hf : s.procs.filter (fun p => p.alive) with
  | [] => rw [hf]; simp
  | [a] => rw [hf]; simp
  | a :: b :: rest =>
    exfalso
    have ha : a ∈ s.procs.filter (fun p => p.alive) := by rw [hf]; simp
    have hb : b ∈ s.procs.filter (fun p => p.alive) := by rw [hf]; simp
    have ha' := List.of_mem_filter ha
    have hb' := List.of_mem_filter hb
    have hamem := List.mem_of_mem_filter ha
    have hbmem := List.mem_of_mem_filter hb
    have hga := h1 a hamem (by simpa using ha')
    have hgb := h1 b hbmem (by simpa using hb')
    rw [hf] at hpw
    have hne : a.pid ≠ b.pid := (List.pairwise_cons.mp hpw).1 b (by simp)
    have heq : some a.pid = some b.pid := hga.symm.trans hgb
    injection heq with heq
    exact hne heq

theorem markDead_inv {s : SupState} (h : Inv s) (pid : Nat) : Inv (markDead s pid) := by
  obtain ⟨h1, h2, h3⟩ := h
  refine ⟨?_, ?_, ?_⟩
  · intro p hp hal
    simp only [markDead, List.mem_map] at hp
    obtain ⟨q, hq, hqe⟩ := hp
    by_cases hqp : q.pid == pid
    · simp [hqp] at hqe
      rw [← hqe] at hal
      simp at hal
    · simp [hqp] at hqe
      subst hqe
      exact h1 q hq hal
  · intro p hp
    simp only [markDead, List.mem_map] at hp
    obtain ⟨q, hq, hqe⟩ := hp
    have : p.pid = q.pid := by
      by_cases hqp : q.pid == pid <;> simp [hqp] at hqe <;> simp [← hqe]
    rw [this]
    exact h2 q hq
  · simp only [markDead]
    rw [List.pairwise_map]
    refine h3.imp_of_mem ?_
    intro a b _ _ hab
    by_cases hap : a.pid == pid <;> by_cases hbp : b.pid == pid <;>
      simp [hap, hbp] <;> simpa using hab

theorem markDead_gateway (s : SupState) (pid : Nat) :
    (markDead s pid).gateway_process = s.gateway_process := rfl

theorem spawnProc_inv {s : SupState} (h : Inv s) (hrun : is_gateway_running s = false) :
    Inv (spawnProc s) := by
  obtain ⟨h1, h2, h3⟩ := h
  have hdead : ∀ p, p ∈ s.procs → p.alive = true → False := by
    intro p hp hal
    have hg := h1 p hp hal
    unfold is_gateway_running at hrun
    rw [hg] at hrun
    unfold pollAlive at hrun
    rw [List.any_eq_false] at hrun
    have := hrun p hp
    simp [hal] at this
  refine ⟨?_, ?_, ?_⟩
  · intro p hp hal
    simp only [spawnProc, List.mem_append, List.mem_singleton] at hp
    rcases hp with hp | hp
    · exact absurd hal (by intro hc; exact hdead p hp hc)
    · subst hp; rfl
  · intro p hp
    simp only [spawnProc, List.mem_append, List.mem_singleton] at hp
    rcases hp with hp | hp
    · exact Nat.lt_succ_of_lt (h2 p hp)
    · subst hp; exact Nat.lt_succ_self _
  · simp only [spawnProc]
    rw [List.pairwise_append]
    refine ⟨h3, List.pairwise_singleton _ _, ?_⟩
    intro a ha b hb
    simp at hb
    subst hb
    exact Nat.ne_of_lt (h2 a ha)

theorem stopStep_lockHeld (s : SupState) (e : Bool) :
    (stopStep s e).1.lockHeld = s.lockHeld := by
  unfold stopStep
  cases s.gateway_process
  · rfl
  · dsimp only
    split
    · split <;> rfl
    · rfl

theorem stopStep_inv {s : SupState} (h : Inv s) (e : Bool) : Inv (stopStep s e).1 := by
  unfold stopStep
  cases s.gateway_process <;> simp
  · exact h
  · split
    · split <;> exact markDead_inv h _
    · exact h

theorem inv_lockHeld_set {s : SupState} (h : Inv s) (b : Bool) :
    Inv { s with lockHeld := b } := h

theorem start_gateway_inv {s : SupState} (h : Inv s) (o : SpawnOutcome) :
    ∀ s' r, start_gateway s o = some (s', r) → Inv s' := by
  intro s' r hsg
  unfold start_gateway at hsg
  split at hsg
  · exact absurd hsg (by simp)
  · split at hsg
    · injection hsg with h1; injection h1 with h1 _; rw [← h1]; exact h
    · rename_i hrun
      cases o with
      | ok =>
        simp at hsg
        rw [← hsg.1]
        exact spawnProc_inv h (by simpa using hrun)
      | fail err =>
        simp at hsg
        rw [← hsg.1]
        exact h

theorem stepOp_inv {s : SupState} (h : Inv s) (op : SupOp) : Inv (stepOp s op) := by
  cases op with
  | start o =>
    simp only [stepOp]
    cases hsg : start_gateway s o with
    | none => exact h
    | some p =>
      obtain ⟨s', r⟩ := p
      exact start_gateway_inv h o s' r hsg
  | restart e o =>
    simp only [stepOp, restart_gateway]
    split
    · exact h
    · cases hsg : start_gateway (stopStep { s with lockHeld := true } e).1 o with
      | none =>
        simp only [hsg]
        exact stopStep_inv (inv_lockHeld_set h true) e
      | some p =>
        obtain ⟨s3, r⟩ := p
        simp only [hsg]
        exact inv_lockHeld_set
          (start_gateway_inv (stopStep_inv (inv_lockHeld_set h true) e) o s3 r hsg) false
  | status => exact h
  | logs n => exact h
  | procExit pid => exact markDead_inv h pid

theorem runOps_inv {s : SupState} (h : Inv s) (ops : List SupOp) : Inv (runOps s ops) := by
  induction ops generalizing s with
  | nil => exact h
  | cons op rest ih => exact ih (stepOp_inv h op)

/-! ### Log retrieval -/

/-- Response shape of the `/api/logs` endpoint. -/
structure LogsResp where
  lines : List String
deriving DecidableEq, Repr

/-- Python's suffix slice `a[idx:]` on a list: a nonnegative index starts at
`min idx len`, a negative index starts at `max (len + idx) 0`. -/
def pySliceSuffix (idx : Int) (xs : List String) : List String :=
  if 0 ≤ idx then xs.drop idx.toNat else xs.drop (xs.length - (-idx).toNat)

/-- Embeds `get_logs` (src/webui/main.py lines 126-135):  if the log file
does not exist, return no lines; otherwise `readlines()` the whole file
(modelled as the given line list, terminators included) and return
`all_lines[-lines:]`.  The `except` branch (an OS error while reading) is
not modelled: reading a present in-memory line list cannot fail. -/
def get_logs (lines : Int) (logFile : Option (List String)) : LogsResp :=
  match logFile with
  | none => ⟨[]⟩
  | some all => ⟨pySliceSuffix (-lines) all⟩

/-! ### A concrete running state used by witnesses -/

/-- The state after one successful `start` from the initial state: pid 0
recorded and alive. -/
def runningState : SupState := spawnProc initState

/-- Definition following the spec's words, for comparison with the code:
the report the spec requires `start` to return when the gateway is already
running. -/
def spec_start_already_running : PyResult := .val (.pyDict [("started", false)])

/-- Definition following the spec's words, for comparison with the code:
the spec requires a spawn failure to surface to the caller as an explicit
failure carrying the OS error. -/
def spec_spawn_failure (err : String) : PyResult := .raised err

/-! ### Claim theorems: supervisor -/

/-- C1.  At-most-one-running invariant: starting from the initial `Stopped`
state, after every sequence of supervisor events (start, restart, status,
log reads, and spontaneous child exits) at most one child process spawned
by the supervisor is alive. -/
theorem at_most_one_running (ops : List SupOp) :
    countAlive (runOps initState ops) ≤ 1 :=
  countAlive_le_one_of_inv (runOps_inv inv_initState ops)

/-- C2.  The claim that `restart` runs to completion is false of the code:
`restart_gateway` acquires the non-reentrant `gateway_lock` and then calls
`start_gateway`, which blocks forever re-acquiring the same lock, so the
restart call never returns a response (`none`), for every state and every
oracle. -/
theorem restart_never_returns (s : SupState) (e : Bool) (o : SpawnOutcome) :
    (restart_gateway s e o).2.1 = none := by
  unfold restart_gateway
  split
  · rfl
  · have hlock : (stopStep { s with lockHeld := true } e).1.lockHeld = true :=
      stopStep_lockHeld { s with lockHeld := true } e
    have : start_gateway (stopStep { s with lockHeld := true } e).1 o = none := by
      unfold start_gateway
      rw [if_pos hlock]
    simp only [this]

/-- C3 counterexample.  `start` with a failing spawn from the initial state
returns normally with Python `None` — the OS error is absorbed (printed),
not propagated as the spec's `SpawnFailure` — and the state is unchanged,
so `status` still reports not running. -/
theorem spawn_failure_absorbed_counterexample :
    start_gateway initState (.fail "FileNotFoundError") =
      some (initState, PyResult.val PyVal.pyNone) ∧
    PyResult.val PyVal.pyNone ≠ spec_spawn_failure "FileNotFoundError" ∧
    is_gateway_running initState = false := by
  refine ⟨rfl, ?_, rfl⟩
  intro h
  exact PyResult.noConfusion h

/-- C3 amended.  If spawning the child raises an OS error, `start_gateway`
catches it, logs it, and returns normally with Python `None`; the recorded
handle (and the whole state) is left unchanged, so when no handle was
recorded a subsequent `status` still reports not running. -/
theorem spawn_failure_silent (s : SupState) (m : String) (hl : s.lockHeld = false) :
    start_gateway s (.fail m) = some (s, PyResult.val PyVal.pyNone) ∧
    (s.gateway_process = none → is_gateway_running s = false) := by
  constructor
  · unfold start_gateway
    rw [if_neg (by rw [hl]; exact Bool.false_ne_true)]
    split <;> rfl
  · intro hg
    unfold is_gateway_running
    rw [hg]

/-- C3 amended, witness at the initial state. -/
theorem spawn_failure_silent_witness :
    initState.lockHeld = false ∧
    start_gateway initState (.fail "FileNotFoundError") =
      some (initState, PyResult.val PyVal.pyNone) :=
  ⟨rfl, (spawn_failure_silent initState "FileNotFoundError" rfl).1⟩

/-- C4 counterexample.  In a running state, `start_gateway` performs no
spawn but its return value is Python `None`, not the spec's
`started: false` report — the code reports nothing. -/
theorem start_no_report_counterexample :
    start_gateway runningState .ok = some (runningState, PyResult.val PyVal.pyNone) ∧
    PyResult.val PyVal.pyNone ≠ spec_start_already_running := by
  refine ⟨by decide, ?_⟩
  intro h
  have : PyVal.pyNone = PyVal.pyDict [("started", false)] := by injection h
  exact PyVal.noConfusion this

/-- C4 amended.  `start` is an idempotent no-op while the child is running:
if the recorded handle is set and the OS reports it alive, `start_gateway`
spawns nothing and leaves the state unchanged (returning Python `None`,
with no `started` report), so two consecutive `start` calls with no
intervening stop leave the state unchanged and exactly one live process. -/
theorem start_idempotent_while_running (s : SupState) (o o' : SpawnOutcome)
    (hl : s.lockHeld = false) (hrun : is_gateway_running s = true) (hinv : Inv s) :
    start_gateway s o = some (s, PyResult.val PyVal.pyNone) ∧
    runOps s [.start o, .start o'] = s ∧
    countAlive s = 1 := by
  have hstart : ∀ o'' : SpawnOutcome,
      start_gateway s o'' = some (s, PyResult.val PyVal.pyNone) := by
    intro o''
    unfold start_gateway
    rw [if_neg (by rw [hl]; exact Bool.false_ne_true), if_pos hrun]
  have hstep : ∀ o'' : SpawnOutcome, stepOp s (.start o'') = s := by
    intro o''
    simp only [stepOp, hstart o'']
  refine ⟨hstart o, ?_, ?_⟩
  · simp only [runOps, hstep]
  · have hle := countAlive_le_one_of_inv hinv
    have hge : 1 ≤ countAlive s := by
      unfold is_gateway_running at hrun
      match hg : s.gateway_process with
      | none => rw [hg] at hrun; exact absurd hrun (by simp)
      | some pid =>
        rw [hg] at hrun
        unfold pollAlive at hrun
        rw [List.any_eq_true] at hrun
        obtain ⟨p, hp, hpa⟩ := hrun
        have : p ∈ s.procs.filter (fun q => q.alive) :=
          List.mem_filter.mpr ⟨hp, by simpa using (Bool.and_elim_right hpa)⟩
        unfold countAlive
        exact List.length_pos_of_mem this
    omega

/-- C4 amended, witness: the state reached by one successful start. -/
theorem start_idempotent_while_running_witness :
    runningState.lockHeld = false ∧ is_gateway_running runningState = true ∧
    countAlive runningState = 1 :=
  ⟨rfl, by decide,
    (start_idempotent_while_running runningState .ok .ok rfl (by decide)
      (by refine ⟨?_, ?_, ?_⟩ <;> decide)).2.2⟩

/-- C5.  When a live child exists, the stop sub-step of `restart_gateway`
first sends `terminate()`, then waits up to the grace period (5 time
units), and sends `kill()` exactly when the process is still alive after
the grace period. -/
theorem stop_substep_escalation :
    gracePeriod = 5 ∧
    ∀ (s : SupState) (e : Bool), is_gateway_running s = true →
      (stopStep s e).2 =
        [PAct.terminate, PAct.wait gracePeriod] ++ (if e then [] else [PAct.kill]) := by
  refine ⟨rfl, ?_⟩
  intro s e hrun
  unfold is_gateway_running at hrun
  unfold stopStep
  match hg : s.gateway_process with
  | none => rw [hg] at hrun; exact absurd hrun (by simp)
  | some pid =>
    rw [hg] at hrun
    have hpoll : pollAlive s pid = true := hrun
    dsimp only
    rw [hpoll]
    cases e <;> simp

/-- C5 witness: in the concrete running state, a child that ignores the
grace period gets terminate, wait 5, kill. -/
theorem stop_substep_escalation_witness :
    is_gateway_running runningState = true ∧
    (stopStep runningState false).2 = [PAct.terminate, PAct.wait 5, PAct.kill] :=
  ⟨by decide, by
    have h := stop_substep_escalation.2 runningState false (by decide)
    simpa using h⟩

/-- C6.  The spec-modelled `stop` is idempotent and total: whenever no live
child exists (including when no child was ever started) it returns
`stopped: true` immediately — no OS actions, no error. -/
theorem stop_idempotent (s : SupState) (grace : Nat) (e : Bool)
    (hrun : is_gateway_running s = false) :
    (stop s grace e).resp = ⟨true⟩ ∧ (stop s grace e).acts = [] := by
  unfold is_gateway_running at hrun
  unfold stop
  match hg : s.gateway_process with
  | none => exact ⟨rfl, rfl⟩
  | some pid =>
    rw [hg] at hrun
    have hpoll : pollAlive s pid = false := hrun
    dsimp only
    rw [hpoll]
    exact ⟨rfl, rfl⟩

/-- C6 witness: `stop` called on the never-started initial state. -/
theorem stop_idempotent_witness :
    is_gateway_running initState = false ∧
    (stop initState 5 true).resp = ⟨true⟩ :=
  ⟨rfl, (stop_idempotent initState 5 true rfl).1⟩

/-- C7.  `status` never fails and is read-only: for every supervisor state
it leaves the state untouched, returns a response with a boolean
`gateway_running` field (and `ok = true`), and reports not running whenever
no handle is recorded. -/
theorem status_total_readonly (s : SupState) (cfg : Option String) :
    stepOp s .status = s ∧
    (get_status s cfg).ok = true ∧
    (s.gateway_process = none → (get_status s cfg).gateway_running = false) := by
  refine ⟨rfl, rfl, ?_⟩
  intro hg
  simp only [get_status, is_gateway_running, hg]

/-- C7 witness at the initial state. -/
theorem status_total_readonly_witness :
    initState.gateway_process = none ∧
    (get_status initState none).gateway_running = false :=
  ⟨rfl, (status_total_readonly initState none).2.2 rfl⟩

/-- C8 counterexample.  For the requested line count 0 and a two-line log
file, `get_logs` returns both lines (Python's `a[-0:]` is the whole list),
not the last `min 0 2 = 0` lines the claim requires. -/
theorem get_logs_zero_counterexample :
    (get_logs 0 (some ["a\n", "b\n"])).lines = ["a\n", "b\n"] ∧
    (["a\n", "b\n"] : List String).length ≠ min 0 2 := by
  exact ⟨rfl, by decide⟩

/-- C8 amended.  For every requested line count `n ≥ 1` and every log-file
content, `get_logs` returns exactly the last `min n total` lines in file
order, and returns no lines when the log file does not exist.  (For `n = 0`
Python's `[-0:]` slice makes the code return all lines instead.) -/
theorem get_logs_tail (n : Nat) (all : List String) (hn : 1 ≤ n) :
    (get_logs (n : Int) (some all)).lines = all.drop (all.length - min n all.length) ∧
    (get_logs (n : Int) none).lines = [] := by
  constructor
  · simp only [get_logs, pySliceSuffix]
    rw [if_neg (by omega)]
    congr 1
    omega
  · rfl

/-- C8 amended, witness: the last 2 of 3 lines. -/
theorem get_logs_tail_witness :
    (1 : Nat) ≤ 2 ∧ (get_logs (2 : Int) (some ["x\n", "y\n", "z\n"])).lines = ["y\n", "z\n"] :=
  ⟨by decide, by
    have h := (get_logs_tail 2 ["x\n", "y\n", "z\n"] (by decide)).1
    simpa using h⟩

/-! ### The config store: JSON values, `json.dumps(-, indent=2)`, `json.loads`

`read_config`/`write_config` (src/webui/main.py lines 66-78) serialize the
config dict with `json.dumps(data, indent=2)` and parse it back with
`json.loads`.  We embed the JSON value space as a mutual inductive
(objects are ordered association lists, as produced by dict insertion
order).  Numbers are modelled as integers; Python floats are outside the
embedding.  The serializer follows CPython's `json.dumps` with `indent=2`:
two-space indentation, `", "`-free item separators (items end with a
comma-newline), `": "` key separators, `[]`/`\x7b\x7d` for empty
containers, and string escaping of quote, backslash, the short control
escapes, and `\u00XX` for remaining control characters (the default
non-ASCII `\uXXXX` escaping does not affect the round trip and is not
modelled: characters at or above space are emitted literally).  The parser
follows `json.loads`: it skips JSON whitespace between tokens, accepts both
escaped and literal characters in strings, rejects unescaped control
characters, rejects leading zeros in numbers, and rejects trailing
garbage. -/

mutual
inductive Json where
  | null : Json
  | bool (b : Bool) : Json
  | num (n : Int) : Json
  | str (s : String) : Json
  | arr (xs : JsonList) : Json
  | obj (m : JsonObj) : Json
inductive JsonList where
  | nil : JsonList
  | cons (hd : Json) (tl : JsonList) : JsonList
inductive JsonObj where
  | nil : JsonObj
  | cons (k : String) (v : Json) (tl : JsonObj) : JsonObj
end

/- Structural size, used as parser fuel bound. -/
mutual
def jsize : Json → Nat
  | .null => 1
  | .bool _ => 1
  | .num _ => 1
  | .str _ => 1
  | .arr xs => 1 + lsize xs
  | .obj m => 1 + osize m
def lsize : JsonList → Nat
  | .nil => 1
  | .cons x t => 1 + jsize x + lsize t
def osize : JsonObj → Nat
  | .nil => 1
  | .cons _ v t => 1 + jsize v + osize t
end

/-- `k` spaces. -/
def spacesC : Nat → List Char
  | 0 => []
  | n + 1 => ' ' :: spacesC n

/-- The character for a decimal digit value below ten. -/
def digitChar : Nat → Char
  | 0 => '0' | 1 => '1' | 2 => '2' | 3 => '3' | 4 => '4'
  | 5 => '5' | 6 => '6' | 7 => '7' | 8 => '8' | _ => '9'

/-- The lowercase character for a hex digit value below sixteen (as used in
Python's `\u00XX` escapes). -/
def hexChar : Nat → Char
  | 0 => '0' | 1 => '1' | 2 => '2' | 3 => '3' | 4 => '4'
  | 5 => '5' | 6 => '6' | 7 => '7' | 8 => '8' | 9 => '9'
  | 10 => 'a' | 11 => 'b' | 12 => 'c' | 13 => 'd' | 14 => 'e' | _ => 'f'

/-- Decimal representation of a natural number, big-endian. -/
def natChars (n : Nat) : List Char :=
  if n = 0 then ['0'] else (Nat.digits 10 n).reverse.map digitChar

/-- Decimal representation of an integer, as Python prints ints. -/
def intChars (i : Int) : List Char :=
  if i < 0 then '-' :: natChars (-i).toNat else natChars i.toNat

/-- JSON escape of one character, following CPython's encoder: quote and
backslash escaped, the two-character control escapes, `\u00XX` for the
remaining control characters, every other character literal. -/
def escChar (c : Char) : List Char :=
  if c = '"' then ['\\', '"']
  else if c = '\\' then ['\\', '\\']
  else if c = '\n' then ['\\', 'n']
  else if c = '\t' then ['\\', 't']
  else if c = '\r' then ['\\', 'r']
  else if c.toNat = 8 then ['\\', 'b']
  else if c.toNat = 12 then ['\\', 'f']
  else if c.toNat < 32 then ['\\', 'u', '0', '0', hexChar (c.toNat / 16), hexChar (c.toNat % 16)]
  else [c]

/-- JSON escape of a character sequence. -/
def escList : List Char → List Char
  | [] => []
  | c :: t => escChar c ++ escList t

/-- A JSON string literal: quote, escaped body, quote. -/
def quoteChars (s : List Char) : List Char :=
  '"' :: (escList s ++ ['"'])

/- `json.dumps(-, indent=2)`, producing the character stream.  `lvl` is
the current nesting depth. -/
mutual
def printVal : Json → Nat → List Char
  | .null, _ => ['n', 'u', 'l', 'l']
  | .bool true, _ => ['t', 'r', 'u', 'e']
  | .bool false, _ => ['f', 'a', 'l', 's', 'e']
  | .num i, _ => intChars i
  | .str s, _ => quoteChars s.data
  | .arr xs, lvl => '[' :: printArrBody xs lvl
  | .obj m, lvl => '{' :: printObjBody m lvl
def printArrBody : JsonList → Nat → List Char
  | .nil, _ => [']']
  | .cons x t, lvl =>
    '\n' :: (spacesC (2 * (lvl + 1)) ++ (printVal x (lvl + 1) ++ printItemsRest t lvl))
def printItemsRest : JsonList → Nat → List Char
  | .nil, lvl => '\n' :: (spacesC (2 * lvl) ++ [']'])
  | .cons x t, lvl =>
    ',' :: '\n' :: (spacesC (2 * (lvl + 1)) ++ (printVal x (lvl + 1) ++ printItemsRest t lvl))
def printObjBody : JsonObj → Nat → List Char
  | .nil, _ => ['}']
  | .cons k v t, lvl =>
    '\n' :: (spacesC (2 * (lvl + 1)) ++
      (quoteChars k.data ++ (':' :: ' ' :: (printVal v (lvl + 1) ++ printMembersRest t lvl))))
def printMembersRest : JsonObj → Nat → List Char
  | .nil, lvl => '\n' :: (spacesC (2 * lvl) ++ ['}'])
  | .cons k v t, lvl =>
    ',' :: '\n' :: (spacesC (2 * (lvl + 1)) ++
      (quoteChars k.data ++ (':' :: ' ' :: (printVal v (lvl + 1) ++ printMembersRest t lvl))))
end

/-- `json.dumps(data, indent=2)` as a string. -/
def json_dumps (j : Json) : String := String.mk (printVal j 0)

/-- JSON whitespace, as skipped by `json.loads`. -/
def isWsChar (c : Char) : Bool :=
  c == ' ' || c == '\n' || c == '\t' || c == '\r'

/-- Skip JSON whitespace. -/
def skipWs (cs : List Char) : List Char := cs.dropWhile isWsChar

/-- Decimal digit test on code points (the scanner's digit class). -/
def isDigitC (c : Char) : Bool :=
  48 ≤ c.toNat && c.toNat ≤ 57

/-- Value of a hex digit character, both cases accepted. -/
def hexVal (c : Char) : Option Nat :=
  if 48 ≤ c.toNat ∧ c.toNat ≤ 57 then some (c.toNat - 48)
  else if 97 ≤ c.toNat ∧ c.toNat ≤ 102 then some (c.toNat - 87)
  else if 65 ≤ c.toNat ∧ c.toNat ≤ 70 then some (c.toNat - 55)
  else none

/-- Decode a two-character escape (the character after the backslash). -/
def escDecode (e : Char) : Option Char :=
  if e = '"' then some '"'
  else if e = '\\' then some '\\'
  else if e = '/' then some '/'
  else if e = 'n' then some '\n'
  else if e = 't' then some '\t'
  else if e = 'r' then some '\r'
  else if e = 'b' then some (Char.ofNat 8)
  else if e = 'f' then some (Char.ofNat 12)
  else none

/-- Decode a `\\uXXXX` escape from its four hex digits.  Code points in the
surrogate range are outside the embedding (Lean characters are Unicode
scalar values) and rejected. -/
def escHex (h1 h2 h3 h4 : Char) : Option Char :=
  match hexVal h1, hexVal h2, hexVal h3, hexVal h4 with
  | some a, some b, some c3, some d =>
    let m := ((a * 16 + b) * 16 + c3) * 16 + d
    if m < 55296 then some (Char.ofNat m) else none
  | _, _, _, _ => none

/-- Parse the body of a JSON string literal after the opening quote, up to
and through the closing quote.  Unescaped control characters are rejected
(CPython's strict mode). -/
def parseStrBody : List Char → Option (List Char × List Char)
  | [] => none
  | c :: r =>
    if c = '"' then some ([], r)
    else if c = '\\' then
      match r with
      | [] => none
      | 'u' :: h1 :: h2 :: h3 :: h4 :: r3 =>
        match escHex h1 h2 h3 h4 with
        | some x => (parseStrBody r3).map (fun p => (x :: p.1, p.2))
        | none => none
      | e :: r2 =>
        match escDecode e with
        | some x => (parseStrBody r2).map (fun p => (x :: p.1, p.2))
        | none => none
    else if c.toNat < 32 then none
    else (parseStrBody r).map (fun p => (c :: p.1, p.2))

/-- Scan a decimal natural number: one or more digits, leading zeros
rejected as in JSON's number grammar. -/
def parseNatNum (cs : List Char) : Option (Nat × List Char) :=
  let ds := cs.takeWhile isDigitC
  let r := cs.dropWhile isDigitC
  match ds with
  | [] => none
  | d :: rest =>
    if d = '0' ∧ rest ≠ [] then none
    else some (ds.foldl (fun a c => a * 10 + (c.toNat - 48)) 0, r)

/-- Parse a JSON integer: optional minus sign, then digits. -/
def parseNum (cs : List Char) : Option (Int × List Char) :=
  match cs with
  | [] => none
  | c :: r =>
    if c = '-' then
      match parseNatNum r with
      | some (n, r') => some (-(n : Int), r')
      | none => none
    else
      match parseNatNum (c :: r) with
      | some (n, r') => some ((n : Int), r')
      | none => none

/- The recursive-descent value parser, mirroring `json.loads` on the value
grammar this model covers.  Fuel decreases on every recursive call; any
fuel at least the structural size of the value suffices. -/
mutual
def parseVal : Nat → List Char → Option (Json × List Char)
  | 0, _ => none
  | f + 1, cs =>
    match skipWs cs with
    | [] => none
    | c :: r =>
      if c = 'n' then
        match r with
        | 'u' :: 'l' :: 'l' :: r' => some (.null, r')
        | _ => none
      else if c = 't' then
        match r with
        | 'r' :: 'u' :: 'e' :: r' => some (.bool true, r')
        | _ => none
      else if c = 'f' then
        match r with
        | 'a' :: 'l' :: 's' :: 'e' :: r' => some (.bool false, r')
        | _ => none
      else if c = '"' then
        match parseStrBody r with
        | some (s, r') => some (.str (String.mk s), r')
        | none => none
      else if c = '[' then
        match skipWs r with
        | [] => none
        | c2 :: r2 =>
          if c2 = ']' then some (.arr .nil, r2)
          else
            match parseItemsLoop f (c2 :: r2) with
            | some (xs, r') => some (.arr xs, r')
            | none => none
      else if c = '{' then
        match skipWs r with
        | [] => none
        | c2 :: r2 =>
          if c2 = '}' then some (.obj .nil, r2)
          else
            match parseMembersLoop f (c2 :: r2) with
            | some (m, r') => some (.obj m, r')
            | none => none
      else
        match parseNum (c :: r) with
        | some (i, r') => some (.num i, r')
        | none => none
def parseItemsLoop : Nat → List Char → Option (JsonList × List Char)
  | 0, _ => none
  | f + 1, cs =>
    match parseVal f cs with
    | none => none
    | some (v, r) =>
      match skipWs r with
      | ',' :: r2 =>
        match parseItemsLoop f r2 with
        | some (t, r3) => some (.cons v t, r3)
        | none => none
      | ']' :: r2 => some (.cons v .nil, r2)
      | _ => none
def parseMembersLoop : Nat → List Char → Option (JsonObj × List Char)
  | 0, _ => none
  | f + 1, cs =>
    match skipWs cs with
    | '"' :: r =>
      match parseStrBody r with
      | none => none
      | some (k, r1) =>
        match skipWs r1 with
        | ':' :: r2 =>
          match parseVal f r2 with
          | none => none
          | some (v, r3) =>
            match skipWs r3 with
            | ',' :: r4 =>
              match parseMembersLoop f r4 with
              | some (t, r5) => some (.cons (String.mk k) v t, r5)
              | none => none
            | '}' :: r4 => some (.cons (String.mk k) v .nil, r4)
            | _ => none
        | _ => none
    | _ => none
end

/-- `json.loads`: parse one value, allow surrounding whitespace, reject
trailing garbage.  The fuel `length + 1` is enough for any value the
serializer can produce (the structural size of a value is at most its
printed length). -/
def json_loads (s : String) : Option Json :=
  match parseVal (s.data.length + 1) s.data with
  | some (v, r) => if skipWs r = [] then some v else none
  | none => none

/-- Embeds `write_config` (src/webui/main.py lines 76-78): the config file
afterwards holds `json.dumps(data, indent=2)`.  The filesystem is modelled
as the config file's content (`none` = file absent). -/
def write_config (data : Json) (_fs : Option String) : Option String :=
  some (json_dumps data)

/-- Embeds `read_config` (src/webui/main.py lines 66-73): if the config
file exists, try `json.loads` on its text and return the parsed value;
on any parse failure — and when the file is absent — return the empty
dict. -/
def read_config (file : Option String) : Json :=
  match file with
  | none => .obj .nil
  | some txt =>
    match json_loads txt with
    | some v => v
    | none => .obj .nil

/-- Whether a JSON value is an object (a Python dict). -/
def Json.isObj : Json → Bool
  | .obj _ => true
  | _ => false

/-! ### Round-trip: helper lemmas on characters and whitespace -/

/-- The head of a continuation is not a digit (so the greedy number scanner
stops exactly at a printed number's end). -/
def headSafe : List Char → Prop
  | [] => True
  | c :: _ => isDigitC c = false

theorem skipWs_nil : skipWs [] = [] := rfl

theorem skipWs_cons_ws {c : Char} (h : isWsChar c = true) (l : List Char) :
    skipWs (c :: l) = skipWs l := by
  simp [skipWs, List.dropWhile_cons, h]

theorem skipWs_cons_not_ws {c : Char} (h : isWsChar c = false) (l : List Char) :
    skipWs (c :: l) = c :: l := by
  simp [skipWs, List.dropWhile_cons, h]

theorem skipWs_spacesC (k : Nat) (l : List Char) : skipWs (spacesC k ++ l) = skipWs l := by
  induction k with
  | zero => rfl
  | succ n ih =>
    simp only [spacesC, List.cons_append]
    rw [skipWs_cons_ws (by decide)]
    exact ih

theorem isDigitC_toNat {c : Char} (h : isDigitC c = true) : 48 ≤ c.toNat ∧ c.toNat ≤ 57 := by
  simpa [isDigitC] using h

theorem digit_ne {c : Char} (h : isDigitC c = true) {x : Char}
    (hx : x.toNat < 48 ∨ 57 < x.toNat) : c ≠ x := by
  obtain ⟨h1, h2⟩ := isDigitC_toNat h
  intro he
  subst he
  omega

theorem digit_not_ws {c : Char} (h : isDigitC c = true) : isWsChar c = false := by
  cases hw : isWsChar c
  · rfl
  · exfalso
    have hmem : ((c = ' ' ∨ c = '\n') ∨ c = '\t') ∨ c = '\r' := by
      simpa [isWsChar] using hw
    obtain ⟨h1, h2⟩ := isDigitC_toNat h
    rcases hmem with ((rfl | rfl) | rfl) | rfl <;> revert h1 <;> decide

theorem digitChar_isDigit {d : Nat} (h : d < 10) : isDigitC (digitChar d) = true := by
  interval_cases d <;> decide

theorem digitChar_toNat {d : Nat} (h : d < 10) : (digitChar d).toNat - 48 = d := by
  interval_cases d <;> decide

theorem digitChar_ne_zero {d : Nat} (h : d < 10) (hd : d ≠ 0) : digitChar d ≠ '0' := by
  interval_cases d <;> first | exact absurd rfl hd | decide

theorem hexVal_hexChar {h : Nat} (hh : h < 16) : hexVal (hexChar h) = some h := by
  interval_cases h <;> decide

/-! ### Round-trip: decimal numerals -/

theorem natChars_ne_nil (n : Nat) : natChars n ≠ [] := by
  unfold natChars
  split
  · simp
  · rename_i hn
    have h1 : Nat.digits 10 n ≠ [] := Nat.digits_ne_nil_iff_ne_zero.mpr hn
    intro hc
    apply h1
    have hlen := congrArg List.length hc
    simp at hlen
    exact hlen

theorem natChars_all_digits {n : Nat} {c : Char} (hc : c ∈ natChars n) :
    isDigitC c = true := by
  rw [natChars] at hc
  split at hc
  · simp at hc
    subst hc
    decide
  · simp only [List.mem_map, List.mem_reverse] at hc
    obtain ⟨d, hd, rfl⟩ := hc
    exact digitChar_isDigit (Nat.digits_lt_base (by norm_num) hd)

theorem scan_digits (xs rest : List Char) (hall : ∀ c ∈ xs, isDigitC c = true)
    (hr : headSafe rest) :
    (xs ++ rest).takeWhile isDigitC = xs ∧ (xs ++ rest).dropWhile isDigitC = rest := by
  induction xs with
  | nil =>
    simp only [List.nil_append]
    cases rest with
    | nil => exact ⟨rfl, rfl⟩
    | cons c t =>
      have hcf : isDigitC c = false := hr
      simp [List.takeWhile_cons, List.dropWhile_cons, hcf]
  | cons x xs ih =>
    have hx := hall x (by simp)
    obtain ⟨ht, hd⟩ := ih (fun c hc => hall c (by simp [hc]))
    simp [List.takeWhile_cons, List.dropWhile_cons, hx, ht, hd]

theorem foldl_base10 (L : List Nat) (acc : Nat) :
    L.foldl (fun a d => a * 10 + d) acc = acc * 10 ^ L.length + Nat.ofDigits 10 L.reverse := by
  induction L generalizing acc with
  | nil => simp [Nat.ofDigits_nil]
  | cons d T ih =>
    simp only [List.foldl_cons, List.reverse_cons, List.length_cons, ih]
    rw [Nat.ofDigits_append, Nat.ofDigits_singleton]
    simp only [List.length_reverse]
    ring

theorem foldl_decode (DS : List Nat) (acc : Nat) (hall : ∀ d ∈ DS, d < 10) :
    DS.foldl (fun a c => a * 10 + c) acc
      = DS.foldl (fun a d => a * 10 + ((digitChar d).toNat - 48)) acc := by
  induction DS generalizing acc with
  | nil => rfl
  | cons d T ih =>
    simp only [List.foldl_cons]
    rw [digitChar_toNat (hall d (by simp))]
    exact ih _ (fun x hx => hall x (by simp [hx]))

theorem parseNatNum_cons_eq {cs : List Char} {d : Char} {tl : List Char}
    (h : cs.takeWhile isDigitC = d :: tl) :
    parseNatNum cs =
      if d = '0' ∧ tl ≠ [] then none
      else some ((d :: tl).foldl (fun a c => a * 10 + (c.toNat - 48)) 0,
        cs.dropWhile isDigitC) := by
  simp only [parseNatNum, h]

theorem parseNatNum_natChars (n : Nat) (rest : List Char) (hr : headSafe rest) :
    parseNatNum (natChars n ++ rest) = some (n, rest) := by
  obtain ⟨htake, hdrop⟩ :=
    scan_digits (natChars n) rest (fun c hc => natChars_all_digits hc) hr
  by_cases hn : n = 0
  · subst hn
    have htake' : (natChars 0 ++ rest).takeWhile isDigitC = '0' :: ([] : List Char) := htake
    rw [parseNatNum_cons_eq htake', hdrop]
    norm_num [List.foldl]
    decide
  · have hL : Nat.digits 10 n ≠ [] := Nat.digits_ne_nil_iff_ne_zero.mpr hn
    have hnc : natChars n = (Nat.digits 10 n).reverse.map digitChar := by
      unfold natChars
      rw [if_neg hn]
    obtain ⟨m, M', hM⟩ : ∃ m M', natChars n = m :: M' := by
      match h' : natChars n with
      | [] => exact absurd h' (natChars_ne_nil n)
      | m :: M' => exact ⟨m, M', rfl⟩
    have htake' : (natChars n ++ rest).takeWhile isDigitC = m :: M' := htake.trans hM
    rw [parseNatNum_cons_eq htake', hdrop]
    have hmhead : ((Nat.digits 10 n).reverse.map digitChar).head? = some m := by
      rw [← hnc, hM]
      rfl
    rw [List.head?_map, List.head?_reverse] at hmhead
    rw [List.getLast?_eq_getLast _ hL] at hmhead
    have hglast : (Nat.digits 10 n).getLast hL ∈ Nat.digits 10 n := List.getLast_mem hL
    have hlast10 : (Nat.digits 10 n).getLast hL < 10 :=
      Nat.digits_lt_base (by norm_num) hglast
    have hlastnz : (Nat.digits 10 n).getLast hL ≠ 0 := Nat.getLast_digit_ne_zero 10 hn
    have hm : m = digitChar ((Nat.digits 10 n).getLast hL) := by
      simpa using hmhead.symm
    have hm0 : ¬(m = '0' ∧ M' ≠ []) := by
      intro hcon
      exact digitChar_ne_zero hlast10 hlastnz (hm ▸ hcon.1)
    rw [if_neg hm0]
    have hdig : ∀ d ∈ (Nat.digits 10 n).reverse, d < 10 := by
      intro d hd
      exact Nat.digits_lt_base (by norm_num) (List.mem_reverse.mp hd)
    have hfold : (m :: M').foldl (fun a c => a * 10 + (c.toNat - 48)) 0 = n := by
      rw [← hM, hnc, List.foldl_map, ← foldl_decode _ _ hdig, foldl_base10,
        List.reverse_reverse, Nat.ofDigits_digits]
      simp
    rw [hfold]

theorem parseNum_intChars (i : Int) (rest : List Char) (hr : headSafe rest) :
    parseNum (intChars i ++ rest) = some (i, rest) := by
  unfold intChars
  split
  · rename_i hneg
    simp only [List.cons_append, parseNum]
    rw [if_true, parseNatNum_natChars _ rest hr]
    show some (-(((-i).toNat : Nat) : Int), rest) = some (i, rest)
    have h2 : -(((-i).toNat : Nat) : Int) = i := by omega
    rw [h2]
  · rename_i hpos
    obtain ⟨c, cr, hM⟩ : ∃ c cr, natChars i.toNat = c :: cr := by
      match h' : natChars i.toNat with
      | [] => exact absurd h' (natChars_ne_nil _)
      | c :: cr => exact ⟨c, cr, rfl⟩
    have hc : isDigitC c = true := natChars_all_digits (n := i.toNat) (by rw [hM]; simp)
    rw [hM]
    simp only [List.cons_append, parseNum]
    rw [if_neg (digit_ne hc (by decide))]
    rw [← List.cons_append, ← hM, parseNatNum_natChars _ rest hr]
    show some (((i.toNat : Nat) : Int), rest) = some (i, rest)
    have h2 : ((i.toNat : Nat) : Int) = i := by omega
    rw [h2]

/-! ### Round-trip: string escaping -/

theorem parseStrBody_escList (s rest : List Char) :
    parseStrBody (escList s ++ '"' :: rest) = some (s, rest) := by
  induction s with
  | nil =>
    rw [show escList [] ++ '"' :: rest = '"' :: rest from rfl, parseStrBody.eq_def]
    simp
  | cons c t ih =>
    rw [show escList (c :: t) ++ '"' :: rest = escChar c ++ (escList t ++ '"' :: rest) from by
      simp [escList]]
    by_cases h1 : c = '"'
    · subst h1
      rw [show escChar '"' = ['\\', '"'] from rfl]
      rw [List.cons_append, List.cons_append, parseStrBody.eq_def]
      simp [escDecode, ih]
    · by_cases h2 : c = '\\'
      · subst h2
        rw [show escChar '\\' = ['\\', '\\'] from rfl]
        rw [List.cons_append, List.cons_append, parseStrBody.eq_def]
        simp [escDecode, ih]
      · by_cases h3 : c = '\n'
        · subst h3
          rw [show escChar '\n' = ['\\', 'n'] from rfl]
          rw [List.cons_append, List.cons_append, parseStrBody.eq_def]
          simp [escDecode, ih]
        · by_cases h4 : c = '\t'
          · subst h4
            rw [show escChar '\t' = ['\\', 't'] from rfl]
            rw [List.cons_append, List.cons_append, parseStrBody.eq_def]
            simp [escDecode, ih]
          · by_cases h5 : c = '\r'
            · subst h5
              rw [show escChar '\r' = ['\\', 'r'] from rfl]
              rw [List.cons_append, List.cons_append, parseStrBody.eq_def]
              simp [escDecode, ih]
            · by_cases h6 : c.toNat = 8
              · have hON : Char.ofNat 8 = c := by rw [← h6, Char.ofNat_toNat]
                have hesc : escChar c = ['\\', 'b'] := by
                  simp [escChar, h1, h2, h3, h4, h5, h6]
                rw [hesc, List.cons_append, List.cons_append, parseStrBody.eq_def]
                simp [escDecode, ih]
                exact hON
              · by_cases h7 : c.toNat = 12
                · have hON : Char.ofNat 12 = c := by rw [← h7, Char.ofNat_toNat]
                  have hesc : escChar c = ['\\', 'f'] := by
                    simp [escChar, h1, h2, h3, h4, h5, h6, h7]
                  rw [hesc, List.cons_append, List.cons_append, parseStrBody.eq_def]
                  simp [escDecode, ih]
                  exact hON
                · by_cases h8 : c.toNat < 32
                  · have hhi : hexVal (hexChar (c.toNat / 16)) = some (c.toNat / 16) :=
                      hexVal_hexChar (by omega)
                    have hlo : hexVal (hexChar (c.toNat % 16)) = some (c.toNat % 16) :=
                      hexVal_hexChar (by omega)
                    have h0 : hexVal '0' = some 0 := by decide
                    have hlt : c.toNat / 16 * 16 + c.toNat % 16 < 55296 := by omega
                    have hON : Char.ofNat (c.toNat / 16 * 16 + c.toNat % 16) = c := by
                      rw [show c.toNat / 16 * 16 + c.toNat % 16 = c.toNat from by omega,
                        Char.ofNat_toNat]
                    have hesc : escChar c =
                        ['\\', 'u', '0', '0', hexChar (c.toNat / 16), hexChar (c.toNat % 16)] := by
                      simp [escChar, h1, h2, h3, h4, h5, h6, h7, h8]
                    rw [hesc]
                    simp only [List.cons_append, List.nil_append]
                    rw [parseStrBody.eq_def]
                    simp [escHex, h0, hhi, hlo, hlt, hON, ih]
                  · have h32 : ¬ c.toNat < 32 := h8
                    have hesc : escChar c = [c] := by
                      simp [escChar, h1, h2, h3, h4, h5, h6, h7, h32]
                    rw [hesc, List.cons_append, List.nil_append, parseStrBody.eq_def]
                    simp [h1, h2, h32, ih]

/-! ### Round-trip: head characters and whitespace absorption -/

/-- The characters a printed JSON value can start with. -/
def valStart (c : Char) : Prop :=
  c = 'n' ∨ c = 't' ∨ c = 'f' ∨ c = '"' ∨ c = '[' ∨ c = '{' ∨ c = '-' ∨ isDigitC c = true

theorem valStart_not_ws {c : Char} (h : valStart c) : isWsChar c = false := by
  rcases h with rfl | rfl | rfl | rfl | rfl | rfl | rfl | hd
  · decide
  · decide
  · decide
  · decide
  · decide
  · decide
  · decide
  · exact digit_not_ws hd

theorem valStart_ne_rbrack {c : Char} (h : valStart c) : c ≠ ']' := by
  rcases h with rfl | rfl | rfl | rfl | rfl | rfl | rfl | hd
  · decide
  · decide
  · decide
  · decide
  · decide
  · decide
  · decide
  · exact digit_ne hd (by decide)

theorem valStart_ne_rbrace {c : Char} (h : valStart c) : c ≠ '}' := by
  rcases h with rfl | rfl | rfl | rfl | rfl | rfl | rfl | hd
  · decide
  · decide
  · decide
  · decide
  · decide
  · decide
  · decide
  · exact digit_ne hd (by decide)

theorem numStart_not_ws {c : Char} (h : c = '-' ∨ isDigitC c = true) : isWsChar c = false := by
  rcases h with rfl | hd
  · decide
  · exact digit_not_ws hd

theorem numStart_ne {c : Char} (h : c = '-' ∨ isDigitC c = true) {x : Char}
    (hx : x.toNat ≠ 45 ∧ (x.toNat < 48 ∨ 57 < x.toNat)) : c ≠ x := by
  rcases h with rfl | hd
  · intro he
    rw [← he] at hx
    exact hx.1 (by decide)
  · exact digit_ne hd hx.2

theorem natChars_head (n : Nat) :
    ∃ c r, natChars n = c :: r ∧ isDigitC c = true := by
  match hM : natChars n with
  | [] => exact absurd hM (natChars_ne_nil n)
  | c :: r =>
    refine ⟨c, r, rfl, ?_⟩
    exact natChars_all_digits (n := n) (by rw [hM]; simp)

theorem intChars_head (i : Int) :
    ∃ c r, intChars i = c :: r ∧ (c = '-' ∨ isDigitC c = true) := by
  unfold intChars
  split
  · exact ⟨'-', natChars (-i).toNat, rfl, Or.inl rfl⟩
  · obtain ⟨c, r, hM, hd⟩ := natChars_head i.toNat
    exact ⟨c, r, hM, Or.inr hd⟩

theorem printVal_head (j : Json) (lvl : Nat) :
    ∃ c r, printVal j lvl = c :: r ∧ valStart c := by
  cases j with
  | null => exact ⟨'n', _, rfl, Or.inl rfl⟩
  | bool b =>
    cases b
    · exact ⟨'f', _, rfl, Or.inr (Or.inr (Or.inl rfl))⟩
    · exact ⟨'t', _, rfl, Or.inr (Or.inl rfl)⟩
  | num i =>
    obtain ⟨c, r, hM, hd⟩ := intChars_head i
    refine ⟨c, r, ?_, ?_⟩
    · rw [printVal.eq_4]
      exact hM
    · rcases hd with rfl | hd
      · exact Or.inr (Or.inr (Or.inr (Or.inr (Or.inr (Or.inr (Or.inl rfl))))))
      · exact Or.inr (Or.inr (Or.inr (Or.inr (Or.inr (Or.inr (Or.inr hd))))))
  | str s =>
    exact ⟨'"', _, rfl, Or.inr (Or.inr (Or.inr (Or.inl rfl)))⟩
  | arr xs =>
    exact ⟨'[', _, rfl, Or.inr (Or.inr (Or.inr (Or.inr (Or.inl rfl))))⟩
  | obj m =>
    exact ⟨'{', _, rfl, Or.inr (Or.inr (Or.inr (Or.inr (Or.inr (Or.inl rfl)))))⟩

theorem headSafe_nil : headSafe [] := trivial

theorem headSafe_itemsRest (t : JsonList) (lvl : Nat) (rest : List Char) :
    headSafe (printItemsRest t lvl ++ rest) := by
  cases t with
  | nil =>
    show isDigitC '\n' = false
    decide
  | cons x t =>
    show isDigitC ',' = false
    decide

theorem headSafe_membersRest (m : JsonObj) (lvl : Nat) (rest : List Char) :
    headSafe (printMembersRest m lvl ++ rest) := by
  cases m with
  | nil =>
    show isDigitC '\n' = false
    decide
  | cons k v t =>
    show isDigitC ',' = false
    decide

theorem spacesC_mem_ws (k : Nat) : ∀ c ∈ spacesC k, isWsChar c = true := by
  induction k with
  | zero => intro c hc; simp [spacesC] at hc
  | succ n ih =>
    intro c hc
    simp only [spacesC, List.mem_cons] at hc
    rcases hc with rfl | hc
    · decide
    · exact ih c hc

theorem skipWs_append_all (ws cs : List Char) (h : ∀ c ∈ ws, isWsChar c = true) :
    skipWs (ws ++ cs) = skipWs cs := by
  induction ws with
  | nil => rfl
  | cons w ws ih =>
    rw [List.cons_append, skipWs_cons_ws (h w (by simp))]
    exact ih (fun c hc => h c (by simp [hc]))

theorem parseVal_ws (f : Nat) (ws cs : List Char) (h : ∀ c ∈ ws, isWsChar c = true) :
    parseVal f (ws ++ cs) = parseVal f cs := by
  cases f with
  | zero => rfl
  | succ f =>
    rw [parseVal.eq_2, parseVal.eq_2, skipWs_append_all ws cs h]

theorem parseItemsLoop_ws (f : Nat) (ws cs : List Char) (h : ∀ c ∈ ws, isWsChar c = true) :
    parseItemsLoop f (ws ++ cs) = parseItemsLoop f cs := by
  cases f with
  | zero => rfl
  | succ f =>
    rw [parseItemsLoop.eq_2, parseItemsLoop.eq_2, parseVal_ws f ws cs h]

theorem parseMembersLoop_ws (f : Nat) (ws cs : List Char) (h : ∀ c ∈ ws, isWsChar c = true) :
    parseMembersLoop f (ws ++ cs) = parseMembersLoop f cs := by
  cases f with
  | zero => rfl
  | succ f =>
    rw [parseMembersLoop.eq_2, parseMembersLoop.eq_2, skipWs_append_all ws cs h]

theorem nl_spaces_ws (k : Nat) : ∀ c ∈ '\n' :: spacesC k, isWsChar c = true := by
  intro c hc
  simp only [List.mem_cons] at hc
  rcases hc with rfl | hc
  · decide
  · exact spacesC_mem_ws k c hc

theorem space_ws : ∀ c ∈ [' '], isWsChar c = true := by
  intro c hc
  simp only [List.mem_singleton] at hc
  subst hc
  decide

/-! ### Round-trip: size bounds -/

theorem jsize_pos (j : Json) : 1 ≤ jsize j := by
  cases j <;> simp [jsize]

theorem lsize_pos (t : JsonList) : 1 ≤ lsize t := by
  cases t with
  | nil => simp [lsize]
  | cons x tl => simp only [lsize]; omega

theorem osize_pos (m : JsonObj) : 1 ≤ osize m := by
  cases m with
  | nil => simp [osize]
  | cons k v tl => simp only [osize]; omega

theorem string_mk_data (s : String) : String.mk s.data = s := rfl

mutual
theorem jsize_le_print : ∀ (j : Json) (lvl : Nat), jsize j ≤ (printVal j lvl).length
  | .null, lvl => by simp [printVal, jsize]
  | .bool true, lvl => by simp [printVal, jsize]
  | .bool false, lvl => by simp [printVal, jsize]
  | .num i, lvl => by
    obtain ⟨c, r, hM, _⟩ := intChars_head i
    simp only [printVal, jsize, hM, List.length_cons]
    omega
  | .str s, lvl => by simp [printVal, jsize, quoteChars]
  | .arr xs, lvl => by
    have h := lsize_le_printArrBody xs lvl
    simp only [printVal, jsize, List.length_cons]
    omega
  | .obj m, lvl => by
    have h := osize_le_printObjBody m lvl
    simp only [printVal, jsize, List.length_cons]
    omega
theorem lsize_le_printArrBody : ∀ (t : JsonList) (lvl : Nat),
    lsize t ≤ (printArrBody t lvl).length
  | .nil, lvl => by simp [printArrBody, lsize]
  | .cons x t, lvl => by
    have h1 := jsize_le_print x (lvl + 1)
    have h2 := lsize_le_printItemsRest t lvl
    simp only [printArrBody, lsize, List.length_cons, List.length_append]
    omega
theorem lsize_le_printItemsRest : ∀ (t : JsonList) (lvl : Nat),
    lsize t ≤ (printItemsRest t lvl).length
  | .nil, lvl => by simp [printItemsRest, lsize]
  | .cons x t, lvl => by
    have h1 := jsize_le_print x (lvl + 1)
    have h2 := lsize_le_printItemsRest t lvl
    simp only [printItemsRest, lsize, List.length_cons, List.length_append]
    omega
theorem osize_le_printObjBody : ∀ (m : JsonObj) (lvl : Nat),
    osize m ≤ (printObjBody m lvl).length
  | .nil, lvl => by simp [printObjBody, osize]
  | .cons k v t, lvl => by
    have h1 := jsize_le_print v (lvl + 1)
    have h2 := osize_le_printMembersRest t lvl
    simp only [printObjBody, osize, List.length_cons, List.length_append]
    omega
theorem osize_le_printMembersRest : ∀ (m : JsonObj) (lvl : Nat),
    osize m ≤ (printMembersRest m lvl).length
  | .nil, lvl => by simp [printMembersRest, osize]
  | .cons k v t, lvl => by
    have h1 := jsize_le_print v (lvl + 1)
    have h2 := osize_le_printMembersRest t lvl
    simp only [printMembersRest, osize, List.length_cons, List.length_append]
    omega
end

/-! ### Round-trip: the serializer's output parses back to the same value -/

mutual
theorem parse_printVal : ∀ (j : Json) (lvl f : Nat) (rest : List Char),
    jsize j ≤ f → headSafe rest →
    parseVal f (printVal j lvl ++ rest) = some (j, rest)
  | j, _, 0, _, hf, _ => by
    have h := jsize_pos j
    omega
  | .null, lvl, f + 1, rest, hf, hr => by
    rw [printVal.eq_1, show (['n', 'u', 'l', 'l'] : List Char) ++ rest =
      'n' :: 'u' :: 'l' :: 'l' :: rest from rfl, parseVal.eq_2,
      skipWs_cons_not_ws (by decide)]
    simp
  | .bool true, lvl, f + 1, rest, hf, hr => by
    rw [printVal.eq_2, show (['t', 'r', 'u', 'e'] : List Char) ++ rest =
      't' :: 'r' :: 'u' :: 'e' :: rest from rfl, parseVal.eq_2,
      skipWs_cons_not_ws (by decide)]
    simp
  | .bool false, lvl, f + 1, rest, hf, hr => by
    rw [printVal.eq_3, show (['f', 'a', 'l', 's', 'e'] : List Char) ++ rest =
      'f' :: 'a' :: 'l' :: 's' :: 'e' :: rest from rfl, parseVal.eq_2,
      skipWs_cons_not_ws (by decide)]
    simp
  | .num i, lvl, f + 1, rest, hf, hr => by
    obtain ⟨c, cr, hM, hstart⟩ := intChars_head i
    rw [printVal.eq_4, hM, List.cons_append, parseVal.eq_2,
      skipWs_cons_not_ws (numStart_not_ws hstart)]
    have h1 : ¬ c = 'n' := numStart_ne hstart (by decide)
    have h2 : ¬ c = 't' := numStart_ne hstart (by decide)
    have h3 : ¬ c = 'f' := numStart_ne hstart (by decide)
    have h4 : ¬ c = '"' := numStart_ne hstart (by decide)
    have h5 : ¬ c = '[' := numStart_ne hstart (by decide)
    have h6 : ¬ c = '{' := numStart_ne hstart (by decide)
    have hpn : parseNum (c :: (cr ++ rest)) = some (i, rest) := by
      rw [← List.cons_append, ← hM]
      exact parseNum_intChars i rest hr
    simp [h1, h2, h3, h4, h5, h6, hpn]
  | .str s, lvl, f + 1, rest, hf, hr => by
    have harg : printVal (.str s) lvl ++ rest = '"' :: (escList s.data ++ ('"' :: rest)) := by
      simp [printVal, quoteChars]
    rw [harg, parseVal.eq_2, skipWs_cons_not_ws (by decide)]
    simp [parseStrBody_escList, string_mk_data]
  | .arr .nil, lvl, f + 1, rest, hf, hr => by
    have harg : printVal (.arr .nil) lvl ++ rest = '[' :: (']' :: rest) := by
      simp [printVal, printArrBody]
    rw [harg, parseVal.eq_2, skipWs_cons_not_ws (by decide)]
    simp [skipWs_cons_not_ws, isWsChar]
  | .arr (.cons x t), lvl, f + 1, rest, hf, hr => by
    obtain ⟨c0, r0, hpr, hvs⟩ := printVal_head x (lvl + 1)
    have harg : printVal (.arr (.cons x t)) lvl ++ rest =
        '[' :: ('\n' :: (spacesC (2 * (lvl + 1)) ++
          (printVal x (lvl + 1) ++ (printItemsRest t lvl ++ rest)))) := by
      simp [printVal, printArrBody]
    rw [harg, parseVal.eq_2, skipWs_cons_not_ws (by decide)]
    have hskip : skipWs ('\n' :: (spacesC (2 * (lvl + 1)) ++
        (printVal x (lvl + 1) ++ (printItemsRest t lvl ++ rest)))) =
        c0 :: (r0 ++ (printItemsRest t lvl ++ rest)) := by
      rw [show ('\n' :: (spacesC (2 * (lvl + 1)) ++
          (printVal x (lvl + 1) ++ (printItemsRest t lvl ++ rest)))) =
          ('\n' :: spacesC (2 * (lvl + 1))) ++
          (printVal x (lvl + 1) ++ (printItemsRest t lvl ++ rest)) from by simp,
        skipWs_append_all _ _ (nl_spaces_ws _), hpr, List.cons_append,
        skipWs_cons_not_ws (valStart_not_ws hvs)]
    have hne : ¬ c0 = ']' := valStart_ne_rbrack hvs
    have hcall : parseItemsLoop f (c0 :: (r0 ++ (printItemsRest t lvl ++ rest))) =
        some (.cons x t, rest) := by
      rw [← List.cons_append, ← hpr]
      refine parse_items x t lvl f rest ?_
      simp only [jsize, lsize] at hf
      omega
    simp [hskip, hne, hcall]
  | .obj .nil, lvl, f + 1, rest, hf, hr => by
    have harg : printVal (.obj .nil) lvl ++ rest = '{' :: ('}' :: rest) := by
      simp [printVal, printObjBody]
    rw [harg, parseVal.eq_2, skipWs_cons_not_ws (by decide)]
    simp [skipWs_cons_not_ws, isWsChar]
  | .obj (.cons k v t), lvl, f + 1, rest, hf, hr => by
    have harg : printVal (.obj (.cons k v t)) lvl ++ rest =
        '{' :: ('\n' :: (spacesC (2 * (lvl + 1)) ++
          (quoteChars k.data ++ (':' :: ' ' :: (printVal v (lvl + 1) ++
            (printMembersRest t lvl ++ rest)))))) := by
      simp [printVal, printObjBody]
    rw [harg, parseVal.eq_2, skipWs_cons_not_ws (by decide)]
    have hskip : skipWs ('\n' :: (spacesC (2 * (lvl + 1)) ++
        (quoteChars k.data ++ (':' :: ' ' :: (printVal v (lvl + 1) ++
          (printMembersRest t lvl ++ rest)))))) =
        '"' :: (escList k.data ++ ('"' :: (':' :: ' ' :: (printVal v (lvl + 1) ++
          (printMembersRest t lvl ++ rest))))) := by
      rw [show ('\n' :: (spacesC (2 * (lvl + 1)) ++
          (quoteChars k.data ++ (':' :: ' ' :: (printVal v (lvl + 1) ++
            (printMembersRest t lvl ++ rest)))))) =
          ('\n' :: spacesC (2 * (lvl + 1))) ++
          (quoteChars k.data ++ (':' :: ' ' :: (printVal v (lvl + 1) ++
            (printMembersRest t lvl ++ rest)))) from by simp,
        skipWs_append_all _ _ (nl_spaces_ws _)]
      rw [show quoteChars k.data ++ (':' :: ' ' :: (printVal v (lvl + 1) ++
          (printMembersRest t lvl ++ rest))) =
          '"' :: (escList k.data ++ ('"' :: (':' :: ' ' :: (printVal v (lvl + 1) ++
            (printMembersRest t lvl ++ rest))))) from by simp [quoteChars]]
      rw [skipWs_cons_not_ws (by decide)]
    have hcall : parseMembersLoop f ('"' :: (escList k.data ++ ('"' :: (':' :: ' ' ::
        (printVal v (lvl + 1) ++ (printMembersRest t lvl ++ rest)))))) =
        some (.cons k v t, rest) := by
      rw [show ('"' :: (escList k.data ++ ('"' :: (':' :: ' ' :: (printVal v (lvl + 1) ++
          (printMembersRest t lvl ++ rest)))))) =
          quoteChars k.data ++ (':' :: ' ' :: (printVal v (lvl + 1) ++
            (printMembersRest t lvl ++ rest))) from by simp [quoteChars]]
      refine parse_members k v t lvl f rest ?_
      simp only [jsize, osize] at hf
      omega
    simp [hskip, hcall]
theorem parse_items : ∀ (x : Json) (t : JsonList) (lvl f : Nat) (rest : List Char),
    jsize x + lsize t ≤ f →
    parseItemsLoop f (printVal x (lvl + 1) ++ (printItemsRest t lvl ++ rest)) =
      some (JsonList.cons x t, rest)
  | x, t, _, 0, _, hf => by
    have h1 := jsize_pos x
    have h2 := lsize_pos t
    omega
  | x, t, lvl, f + 1, rest, hf => by
    rw [parseItemsLoop.eq_2]
    have hpv : parseVal f (printVal x (lvl + 1) ++ (printItemsRest t lvl ++ rest)) =
        some (x, printItemsRest t lvl ++ rest) := by
      refine parse_printVal x (lvl + 1) f _ ?_ (headSafe_itemsRest t lvl rest)
      have h2 := lsize_pos t
      omega
    cases t with
    | nil =>
      have hskip : skipWs (printItemsRest .nil lvl ++ rest) = ']' :: rest := by
        rw [show printItemsRest JsonList.nil lvl ++ rest =
          ('\n' :: spacesC (2 * lvl)) ++ (']' :: rest) from by simp [printItemsRest],
          skipWs_append_all _ _ (nl_spaces_ws _), skipWs_cons_not_ws (by decide)]
      simp [hpv, hskip]
    | cons y t' =>
      have hskip : skipWs (printItemsRest (.cons y t') lvl ++ rest) =
          ',' :: ('\n' :: (spacesC (2 * (lvl + 1)) ++ (printVal y (lvl + 1) ++
            (printItemsRest t' lvl ++ rest)))) := by
        rw [show printItemsRest (JsonList.cons y t') lvl ++ rest =
          ',' :: ('\n' :: (spacesC (2 * (lvl + 1)) ++ (printVal y (lvl + 1) ++
            (printItemsRest t' lvl ++ rest)))) from by simp [printItemsRest],
          skipWs_cons_not_ws (by decide)]
      have hloop : parseItemsLoop f ('\n' :: (spacesC (2 * (lvl + 1)) ++
          (printVal y (lvl + 1) ++ (printItemsRest t' lvl ++ rest)))) =
          some (.cons y t', rest) := by
        rw [show ('\n' :: (spacesC (2 * (lvl + 1)) ++ (printVal y (lvl + 1) ++
            (printItemsRest t' lvl ++ rest)))) =
            ('\n' :: spacesC (2 * (lvl + 1))) ++ (printVal y (lvl + 1) ++
            (printItemsRest t' lvl ++ rest)) from by simp,
          parseItemsLoop_ws f _ _ (nl_spaces_ws _)]
        refine parse_items y t' lvl f rest ?_
        have h1 := jsize_pos x
        simp only [lsize] at hf
        omega
      simp [hpv, hskip, hloop]
theorem parse_members : ∀ (k : String) (v : Json) (t : JsonObj) (lvl f : Nat)
    (rest : List Char), jsize v + osize t ≤ f →
    parseMembersLoop f (quoteChars k.data ++ (':' :: ' ' :: (printVal v (lvl + 1) ++
      (printMembersRest t lvl ++ rest)))) = some (JsonObj.cons k v t, rest)
  | k, v, t, _, 0, _, hf => by
    have h1 := jsize_pos v
    have h2 := osize_pos t
    omega
  | k, v, t, lvl, f + 1, rest, hf => by
    rw [parseMembersLoop.eq_2]
    have harg : quoteChars k.data ++ (':' :: ' ' :: (printVal v (lvl + 1) ++
        (printMembersRest t lvl ++ rest))) =
        '"' :: (escList k.data ++ ('"' :: (':' :: ' ' :: (printVal v (lvl + 1) ++
          (printMembersRest t lvl ++ rest))))) := by
      simp [quoteChars]
    have hstr : parseStrBody (escList k.data ++ ('"' :: (':' :: ' ' ::
        (printVal v (lvl + 1) ++ (printMembersRest t lvl ++ rest))))) =
        some (k.data, ':' :: ' ' :: (printVal v (lvl + 1) ++
          (printMembersRest t lvl ++ rest))) := parseStrBody_escList _ _
    have hpv : parseVal f (' ' :: (printVal v (lvl + 1) ++ (printMembersRest t lvl ++ rest))) =
        some (v, printMembersRest t lvl ++ rest) := by
      rw [show (' ' :: (printVal v (lvl + 1) ++ (printMembersRest t lvl ++ rest))) =
        [' '] ++ (printVal v (lvl + 1) ++ (printMembersRest t lvl ++ rest)) from rfl,
        parseVal_ws f _ _ space_ws]
      refine parse_printVal v (lvl + 1) f _ ?_ (headSafe_membersRest t lvl rest)
      have h2 := osize_pos t
      omega
    cases t with
    | nil =>
      have hskip : skipWs (printMembersRest .nil lvl ++ rest) = '}' :: rest := by
        rw [show printMembersRest JsonObj.nil lvl ++ rest =
          ('\n' :: spacesC (2 * lvl)) ++ ('}' :: rest) from by simp [printMembersRest],
          skipWs_append_all _ _ (nl_spaces_ws _), skipWs_cons_not_ws (by decide)]
      simp [harg, skipWs_cons_not_ws, isWsChar, hstr, hpv, hskip, string_mk_data]
    | cons k' v' t' =>
      have hskip : skipWs (printMembersRest (.cons k' v' t') lvl ++ rest) =
          ',' :: ('\n' :: (spacesC (2 * (lvl + 1)) ++ (quoteChars k'.data ++
            (':' :: ' ' :: (printVal v' (lvl + 1) ++ (printMembersRest t' lvl ++ rest)))))) := by
        rw [show printMembersRest (JsonObj.cons k' v' t') lvl ++ rest =
          ',' :: ('\n' :: (spacesC (2 * (lvl + 1)) ++ (quoteChars k'.data ++
            (':' :: ' ' :: (printVal v' (lvl + 1) ++
              (printMembersRest t' lvl ++ rest)))))) from by simp [printMembersRest],
          skipWs_cons_not_ws (by decide)]
      have hloop : parseMembersLoop f ('\n' :: (spacesC (2 * (lvl + 1)) ++
          (quoteChars k'.data ++ (':' :: ' ' :: (printVal v' (lvl + 1) ++
            (printMembersRest t' lvl ++ rest)))))) = some (.cons k' v' t', rest) := by
        rw [show ('\n' :: (spacesC (2 * (lvl + 1)) ++ (quoteChars k'.data ++
            (':' :: ' ' :: (printVal v' (lvl + 1) ++ (printMembersRest t' lvl ++ rest)))))) =
            ('\n' :: spacesC (2 * (lvl + 1))) ++ (quoteChars k'.data ++
            (':' :: ' ' :: (printVal v' (lvl + 1) ++ (printMembersRest t' lvl ++ rest))))
            from by simp,
          parseMembersLoop_ws f _ _ (nl_spaces_ws _)]
        refine parse_members k' v' t' lvl f rest ?_
        have h1 := jsize_pos v
        simp only [osize] at hf
        omega
      simp [harg, skipWs_cons_not_ws, isWsChar, hstr, hpv, hskip, hloop, string_mk_data]
end

theorem string_data_mk (L : List Char) : (String.mk L).data = L := rfl

/-! ### Claim theorems: config store -/

/-- C9.  Config round-trip: for every JSON document with string keys (an
ordered association object over the embedded value space — null, booleans,
integers, strings, arrays, objects), writing it with `write_config`
(`json.dumps(-, indent=2)`) and reading it back with `read_config`
(`json.loads`) returns the same document, whatever the file held before. -/
theorem config_round_trip (kvs : JsonObj) (fs : Option String) :
    read_config (write_config (Json.obj kvs) fs) = Json.obj kvs := by
  have hlen := jsize_le_print (Json.obj kvs) 0
  have hparse : parseVal ((printVal (Json.obj kvs) 0).length + 1)
      (printVal (Json.obj kvs) 0 ++ []) = some (Json.obj kvs, []) :=
    parse_printVal (Json.obj kvs) 0 _ [] (by omega) headSafe_nil
  rw [List.append_nil] at hparse
  simp [write_config, read_config, json_loads, json_dumps, string_data_mk, hparse, skipWs_nil]

/-- C10.  `read_config` is total and returns the empty dict when the config
file is absent or holds invalid JSON; but when the file holds the valid
non-object JSON text `42`, it returns the integer 42, not a dictionary —
contradicting its own `-> dict` annotation. -/
theorem read_config_non_dict :
    read_config (some "42") = Json.num 42 ∧
    (read_config (some "42")).isObj = false ∧
    read_config none = Json.obj .nil ∧
    read_config (some "\x7b") = Json.obj .nil := by
  refine ⟨rfl, rfl, rfl, rfl⟩

end NanobotWebUI
